import Mathlib

/-!
Verification of the client-side media pipeline: the thumbnail extractor's
bounded capture-retry loop, the audio compositor's mixing passes
(primary volume pass, secondary weighted mix, silence self-healing), the
WAV (PCM container) serializer, and the stubbed recombination collaborator.

Audio samples are modelled as rationals (the source stores them in
floating-point channel arrays; all operations involved — clamping, scaling
by constants, addition — are exact on the rationals).  Byte buffers are
modelled as lists of naturals below 256, and the host's DataView writes are
modelled as in-place list updates at explicit offsets.
-/

/-- Clamp of a rational to an interval, modelling the source idiom
`Math.max(lo, Math.min(hi, x))`. -/
def clampQ (lo hi x : ℚ) : ℚ := max lo (min hi x)

/-- Truncation of a rational toward zero, modelling the host's
number-to-integer conversion performed by `DataView.setInt16`. -/
def ratTrunc (q : ℚ) : ℤ :=
  if q < 0 then -((-q).num / ((-q).den : ℤ)) else q.num / (q.den : ℤ)

/-- Decoded audio data: a fixed channel count, per-channel sample count
(`length`) and sample rate, plus the per-channel sample lists.  Mirrors the
host `AudioBuffer` object used by the compositor and the serializer. -/
structure AudioBuffer where
  numberOfChannels : ℕ
  length : ℕ
  sampleRate : ℕ
  channels : List (List ℚ)

/-- Well-formedness: the channel list realises the declared channel count,
and every channel holds exactly `length` samples (`createBuffer` fixes both
at creation; they are never resized). -/
def AudioBuffer.WF (b : AudioBuffer) : Prop :=
  b.channels.length = b.numberOfChannels ∧ ∀ ch ∈ b.channels, ch.length = b.length

instance (b : AudioBuffer) : Decidable b.WF := by
  unfold AudioBuffer.WF; infer_instance

/-- Model of `buffer.getChannelData(c)`. -/
def getChannelData (b : AudioBuffer) (c : ℕ) : List ℚ := b.channels.getD c []

/-- Reading one sample: channel `c`, frame `i` (out-of-range reads default
to `0`, which matches the host conversion of a missing entry in the int16
store). -/
def getSample (b : AudioBuffer) (c i : ℕ) : ℚ := (getChannelData b c).getD i 0

/-- Buffer whose channel `c`, frame `i` holds `f c i`; used to model the
loops that populate a fresh or existing buffer entry by entry. -/
def mkBuffer (numChans len rate : ℕ) (f : ℕ → ℕ → ℚ) : AudioBuffer :=
  ⟨numChans, len, rate, (List.range numChans).map (fun c => (List.range len).map (f c))⟩

/-! Byte-level model of the `ArrayBuffer`/`DataView` interface. -/

/-- Little-endian byte pair of a natural, reduced modulo `2^16`
(the store performed by `DataView.setUint16`). -/
def bytesOfUInt16 (x : ℕ) : List ℕ := [x % 256, x / 256 % 256]

/-- Little-endian byte quadruple of a natural, reduced modulo `2^32`
(the store performed by `DataView.setUint32`). -/
def bytesOfUInt32 (x : ℕ) : List ℕ :=
  [x % 256, x / 256 % 256, x / 65536 % 256, x / 16777216 % 256]

/-- Little-endian byte pair of an integer reduced modulo `2^16` — the two's
complement store performed by `DataView.setInt16`. -/
def bytesOfInt16 (x : ℤ) : List ℕ := bytesOfUInt16 (x % 65536).toNat

/-- Sequential byte store into a byte list starting at `off`. -/
def writeBytes (v : List ℕ) (off : ℕ) : List ℕ → List ℕ
  | [] => v
  | b :: bs => writeBytes (v.set off b) (off + 1) bs

/-- UTF-16 code units of a character list, reduced to bytes — models
`charCodeAt` feeding `setUint8`. -/
def charCodes (cs : List Char) : List ℕ := cs.map (fun c => c.toNat % 256)

/-- Model of `DataView.setUint16(off, x, true)`. -/
def setUint16 (v : List ℕ) (off x : ℕ) : List ℕ := writeBytes v off (bytesOfUInt16 x)

/-- Model of `DataView.setUint32(off, x, true)`. -/
def setUint32 (v : List ℕ) (off x : ℕ) : List ℕ := writeBytes v off (bytesOfUInt32 x)

/-- Model of `DataView.setInt16(off, x, true)` applied to a rational:
the host first truncates the number toward zero, then stores the two's
complement of the result. -/
def setInt16 (v : List ℕ) (off : ℕ) (x : ℚ) : List ℕ :=
  writeBytes v off (bytesOfInt16 (ratTrunc x))

/-- Model of the source helper `writeString`. -/
def writeString (v : List ℕ) (off : ℕ) (cs : List Char) : List ℕ :=
  writeBytes v off (charCodes cs)

/-! Translation of `audioBufferToWav` (the WAV/PCM serializer).  The source
allocates an `ArrayBuffer` of `44 + dataSize` bytes, writes the header
fields through a `DataView` at explicit offsets, then writes each frame's
samples as little-endian int16 at `44 + pos*blockAlign + i*bytesPerSample`. -/

/-- Per-sample PCM conversion used by the serializer's inner loop: clamp to
`[-1, 1]`, scale negatives by `0x8000` and non-negatives by `0x7FFF`, then
truncate to an integer as `DataView.setInt16` does. -/
def pcm16OfSample (s : ℚ) : ℤ :=
  let sample := clampQ (-1) 1 s
  ratTrunc (if sample < 0 then sample * 32768 else sample * 32767)

/-- Model of `audioBufferToWav` from the source: header writes through the
DataView at their explicit offsets followed by the interleaving loop. -/
def audioBufferToWav (buffer : AudioBuffer) : List ℕ :=
  let numChannels := buffer.numberOfChannels
  let sampleRate := buffer.sampleRate
  let format := 1
  let bitDepth := 16
  let bytesPerSample := bitDepth / 8
  let blockAlign := numChannels * bytesPerSample
  let byteRate := sampleRate * blockAlign
  let dataSize := buffer.length * blockAlign
  let headerSize := 44
  let totalSize := headerSize + dataSize
  let v0 := List.replicate totalSize 0
  let v1 := writeString v0 0 ['R', 'I', 'F', 'F']
  let v2 := setUint32 v1 4 (totalSize - 8)
  let v3 := writeString v2 8 ['W', 'A', 'V', 'E']
  let v4 := writeString v3 12 ['f', 'm', 't', ' ']
  let v5 := setUint32 v4 16 16
  let v6 := setUint16 v5 20 format
  let v7 := setUint16 v6 22 numChannels
  let v8 := setUint32 v7 24 sampleRate
  let v9 := setUint32 v8 28 byteRate
  let v10 := setUint16 v9 32 blockAlign
  let v11 := setUint16 v10 34 bitDepth
  let v12 := writeString v11 36 ['d', 'a', 't', 'a']
  let v13 := setUint32 v12 40 dataSize
  let offset := 44
  (List.range buffer.length).foldl (fun v pos =>
    (List.range numChannels).foldl (fun w i =>
      let sample := clampQ (-1) 1 (getSample buffer i pos)
      let value : ℚ := if sample < 0 then sample * 32768 else sample * 32767
      setInt16 w (offset + pos * blockAlign + i * bytesPerSample) value) v) v13

/-- The 44 header bytes of the layout stated by the specification. -/
def wavHeaderBytes (b : AudioBuffer) : List ℕ :=
  charCodes ['R', 'I', 'F', 'F'] ++
  bytesOfUInt32 (44 + b.length * b.numberOfChannels * 2 - 8) ++
  charCodes ['W', 'A', 'V', 'E'] ++
  charCodes ['f', 'm', 't', ' '] ++
  bytesOfUInt32 16 ++
  bytesOfUInt16 1 ++
  bytesOfUInt16 b.numberOfChannels ++
  bytesOfUInt32 b.sampleRate ++
  bytesOfUInt32 (b.sampleRate * b.numberOfChannels * 2) ++
  bytesOfUInt16 (b.numberOfChannels * 2) ++
  bytesOfUInt16 16 ++
  charCodes ['d', 'a', 't', 'a'] ++
  bytesOfUInt32 (b.length * b.numberOfChannels * 2)

/-- The data region of the layout stated by the specification: frames in
order, channels interleaved within each frame, one little-endian int16 per
sample. -/
def wavDataBytes (b : AudioBuffer) : List ℕ :=
  (List.range b.length).flatMap (fun pos =>
    (List.range b.numberOfChannels).flatMap (fun i =>
      bytesOfInt16 (pcm16OfSample (getSample b i pos))))

/-- Byte layout stated by the specification: 44-byte header followed by the
interleaved samples. -/
def wavSpecBytes (b : AudioBuffer) : List ℕ := wavHeaderBytes b ++ wavDataBytes b

/-! Translation of the numeric stages of `processVideoAudio` (the audio
compositor).  The decode steps are browser calls; their results enter the
model as the already-decoded buffers.  The secondary track is modelled as
`Option (Except Unit AudioBuffer)`: `none` when no track is selected,
`some (.error ())` when its fetch or decode fails (the source catches and
logs that failure), `some (.ok buf)` when it decodes to `buf`. -/

/-- Primary pass: a fresh output buffer with the video's channel count,
sample count and rate, each sample scaled by the clamped video volume. -/
def primaryPass (videoAudioBuffer : AudioBuffer) (videoVolume : ℚ) : AudioBuffer :=
  mkBuffer videoAudioBuffer.numberOfChannels videoAudioBuffer.length
    videoAudioBuffer.sampleRate
    (fun channel i => getSample videoAudioBuffer channel i * clampQ 0 1 videoVolume)

/-- Secondary pass: mix the fetched track into the output for the first
`min(audioTrackBuffer.length, videoLength)` frames of every output channel,
reading the track's channel `channel % audioTrackBuffer.numberOfChannels`,
weighting by `clamp(audioVolume,0,1) * 0.8` and clipping the sum to
`[-1, 1]`.  Frames past `audioLength` keep the primary samples. -/
def mixSecondaryPass (outputBuffer : AudioBuffer) (videoLength : ℕ)
    (audioTrackBuffer : AudioBuffer) (audioVolume : ℚ) : AudioBuffer :=
  let audioLength := min audioTrackBuffer.length videoLength
  let normalizedAudioVolume := clampQ 0 1 audioVolume * (8 / 10)
  mkBuffer outputBuffer.numberOfChannels outputBuffer.length outputBuffer.sampleRate
    (fun channel i =>
      if i < audioLength then
        clampQ (-1) 1 (getSample outputBuffer channel i +
          getSample audioTrackBuffer (channel % audioTrackBuffer.numberOfChannels) i *
            normalizedAudioVolume)
      else getSample outputBuffer channel i)

/-- The `hasAudio` scan: does any sample of any channel exceed `0.001` in
magnitude? -/
def hasAudioCheck (outputBuffer : AudioBuffer) : Bool :=
  outputBuffer.channels.any (fun outputData =>
    outputData.any (fun x => decide ((1 / 1000 : ℚ) < |x|)))

/-- The restoration step: overwrite the first `videoAudioBuffer.length`
frames of every output channel with the video sample scaled by the RAW
(unclamped) `videoVolume`. -/
def restoreVideoAudio (videoAudioBuffer outputBuffer : AudioBuffer)
    (videoVolume : ℚ) : AudioBuffer :=
  mkBuffer outputBuffer.numberOfChannels outputBuffer.length outputBuffer.sampleRate
    (fun channel i =>
      if i < videoAudioBuffer.length then getSample videoAudioBuffer channel i * videoVolume
      else getSample outputBuffer channel i)

/-- Conditional secondary stage: runs only when a track is selected and
`audioVolume > 0`; a fetch/decode failure is caught and the primary output
is kept (the source logs and continues). -/
def secondaryStage (videoAudioBuffer outputBuffer : AudioBuffer)
    (audioTrack : Option (Except Unit AudioBuffer)) (audioVolume : ℚ) : AudioBuffer :=
  match audioTrack with
  | some fetchDecode =>
    if 0 < audioVolume then
      match fetchDecode with
      | .ok audioTrackBuffer =>
        mixSecondaryPass outputBuffer videoAudioBuffer.length audioTrackBuffer audioVolume
      | .error _ => outputBuffer
    else outputBuffer
  | none => outputBuffer

/-- The full numeric pipeline of the compositor: primary pass, optional
secondary pass, silence check, conditional restoration.  Returns the buffer
handed to the WAV serializer. -/
def processOutputBuffer (videoAudioBuffer : AudioBuffer)
    (audioTrack : Option (Except Unit AudioBuffer)) (videoVolume audioVolume : ℚ) :
    AudioBuffer :=
  if hasAudioCheck (secondaryStage videoAudioBuffer (primaryPass videoAudioBuffer videoVolume)
      audioTrack audioVolume) = false ∧ 0 < videoVolume then
    restoreVideoAudio videoAudioBuffer
      (secondaryStage videoAudioBuffer (primaryPass videoAudioBuffer videoVolume)
        audioTrack audioVolume) videoVolume
  else
    secondaryStage videoAudioBuffer (primaryPass videoAudioBuffer videoVolume)
      audioTrack audioVolume

/-- Options record passed to the recombination collaborator. -/
structure AudioOptions where
  videoVolume : ℚ
  audioVolume : ℚ
  isMuted : Bool
  isAudioMuted : Bool

/-- Result record of the recombination collaborator. -/
structure CombineResult where
  videoBlob : List ℕ
  thumbnailBlob : List ℕ

/-- Translation of the stubbed `combineVideoAndAudio`: returns the input
video file unchanged and an empty thumbnail blob.  The second component of
the pair records the arguments of every invocation of the progress
callback (the stub never invokes it). -/
def combineVideoAndAudio (videoFile audioFile : List ℕ) (duration : ℚ)
    (options : AudioOptions) : CombineResult × List ℚ :=
  (⟨videoFile, []⟩, [])

/-- End-to-end data flow of `processVideoAudio` after the decode steps:
mix, serialize to WAV, delegate to the recombination collaborator, return
its video blob.  The second component records progress-callback
invocations. -/
def processVideoAudio (videoBlob : List ℕ) (videoAudioBuffer : AudioBuffer)
    (audioTrack : Option (Except Unit AudioBuffer)) (videoVolume audioVolume : ℚ)
    (videoDuration : ℚ) : List ℕ × List ℚ :=
  let outputBuffer := processOutputBuffer videoAudioBuffer audioTrack videoVolume audioVolume
  let processedAudioBlob := audioBufferToWav outputBuffer
  let res := combineVideoAndAudio videoBlob processedAudioBlob videoDuration
    ⟨videoVolume, audioVolume, false, false⟩
  (res.1.videoBlob, res.2)

/-! Event-trace model of `generateThumbnail`.  The executor runs
synchronously up to the first suspension; `tryCapture` either rejects
immediately (attempt counter exhausted), performs a rasterization that
succeeds (its `toBlob` callback is queued and later resolves or rejects),
or performs a rasterization that throws (a retry is queued via `setTimeout`
when attempts remain, otherwise the error is rejected).  The `finally`
cleanup (revoking the object URL and removing the video element) runs as
soon as the `try` block's synchronous part completes — before any queued
callback.  `rasterOk n` tells whether the n-th rasterization avoids
throwing; `blobOk n` whether its `toBlob` delivers a non-null blob. -/

/-- Reasons the extractor's promise can be rejected. -/
inductive RejectReason where
  | loadError
  | exhausted
  | rasterError
  | blobNull
deriving DecidableEq

/-- Observable events of one extractor invocation. -/
inductive TEvent where
  | rasterize (n : ℕ)
  | revokeUrl
  | removeVideo
  | resolveEv
  | rejectEv (r : RejectReason)
deriving DecidableEq

/-- Attempt cap of the capture loop. -/
def MAX_ATTEMPTS : ℕ := 3

/-- Events produced by invoking `tryCapture` with the given attempt
counter, including everything its queued callbacks later produce. -/
def captureRun (rasterOk blobOk : ℕ → Bool) (attempts : ℕ) : List TEvent :=
  if attempts ≥ MAX_ATTEMPTS then [TEvent.rejectEv RejectReason.exhausted]
  else
    let a := attempts + 1
    if rasterOk a then
      TEvent.rasterize a :: (if blobOk a then [TEvent.resolveEv]
        else [TEvent.rejectEv RejectReason.blobNull])
    else if a < MAX_ATTEMPTS then
      TEvent.rasterize a :: captureRun rasterOk blobOk a
    else [TEvent.rasterize a, TEvent.rejectEv RejectReason.rasterError]
termination_by MAX_ATTEMPTS - attempts
decreasing_by simp only [MAX_ATTEMPTS] at *; omega

/-- Full event trace of one `generateThumbnail` invocation.  When the video
loads, the first `tryCapture` call runs synchronously (one rasterization,
with either a queued `toBlob` callback or a queued retry), then the
`finally` cleanup runs, then the queued work; when loading fails, the
`catch` rejects and the cleanup follows. -/
def generateThumbnailTrace (loadOk : Bool) (rasterOk blobOk : ℕ → Bool) : List TEvent :=
  if loadOk then
    if rasterOk 1 then
      [TEvent.rasterize 1, TEvent.revokeUrl, TEvent.removeVideo] ++
        (if blobOk 1 then [TEvent.resolveEv] else [TEvent.rejectEv RejectReason.blobNull])
    else
      [TEvent.rasterize 1, TEvent.revokeUrl, TEvent.removeVideo] ++ captureRun rasterOk blobOk 1
  else [TEvent.rejectEv RejectReason.loadError, TEvent.revokeUrl, TEvent.removeVideo]

/-- Is an event a rasterization attempt? -/
def isRasterize : TEvent → Bool
  | TEvent.rasterize _ => true
  | _ => false

/-- Checks that every release event is preceded by a resolution or
rejection; the second argument carries whether the result is already
settled. -/
def releaseOnlyAfterSettle : List TEvent → Bool → Bool
  | [], _ => true
  | TEvent.revokeUrl :: rest, settled => settled && releaseOnlyAfterSettle rest settled
  | TEvent.removeVideo :: rest, settled => settled && releaseOnlyAfterSettle rest settled
  | TEvent.resolveEv :: rest, _ => releaseOnlyAfterSettle rest true
  | TEvent.rejectEv _ :: rest, _ => releaseOnlyAfterSettle rest true
  | TEvent.rasterize _ :: rest, settled => releaseOnlyAfterSettle rest settled

/-! Event-trace model of the cleanup behaviour of `processVideoAudio`.
The audio decoding context is created only after the metadata load
succeeds; the `finally` block closes it (when created) and then pauses,
revokes and removes the video element, on every exit path. -/

/-- Observable resource events of one compositor invocation. -/
inductive CEvent where
  | closeCtx
  | revokeUrl
  | removeVideo
  | returnOk
  | throwErr
deriving DecidableEq

/-- Resource-event trace of one `processVideoAudio` invocation, as a
function of whether the metadata load and the video-audio decode succeed
(all later failures are caught internally and the recombination stub
cannot fail). -/
def processVideoAudioTrace (metaResult : Except Unit ℚ)
    (decodeResult : Except Unit AudioBuffer) : List CEvent :=
  match metaResult with
  | .error _ => [CEvent.revokeUrl, CEvent.removeVideo, CEvent.throwErr]
  | .ok _ =>
    match decodeResult with
    | .error _ => [CEvent.closeCtx, CEvent.revokeUrl, CEvent.removeVideo, CEvent.throwErr]
    | .ok _ => [CEvent.closeCtx, CEvent.revokeUrl, CEvent.removeVideo, CEvent.returnOk]

/-- Reassembly of a signed 16-bit value from its two little-endian bytes —
the read half of the round-trip stated by the specification. -/
def int16FromBytes (b0 b1 : ℕ) : ℤ :=
  let u := b0 + 256 * b1
  if u < 32768 then (u : ℤ) else (u : ℤ) - 65536

/-- Inverse of the serializer's int16 scaling, as stated by the
specification: negative stored values divide by `32768`, non-negative ones
by `32767`. -/
def decodePCM (v : ℤ) : ℚ := if v < 0 then (v : ℚ) / 32768 else (v : ℚ) / 32767

/-- Reading back one interleaved sample (channel `c` of frame `pos`) from a
serialized WAV byte list with `numChannels` channels. -/
def readWavSample (bytes : List ℕ) (numChannels pos c : ℕ) : ℤ :=
  int16FromBytes (bytes.getD (44 + (pos * numChannels + c) * 2) 0)
    (bytes.getD (44 + (pos * numChannels + c) * 2 + 1) 0)

/-- Is an event the object-URL release? -/
def isRevokeUrl : TEvent → Bool
  | TEvent.revokeUrl => true
  | _ => false

/-- Is an event the video-element release? -/
def isRemoveVideo : TEvent → Bool
  | TEvent.removeVideo => true
  | _ => false

/-- Is a compositor event the decoding-context release? -/
def isCloseCtx : CEvent → Bool
  | CEvent.closeCtx => true
  | _ => false

/-- Is a compositor event the object-URL release? -/
def isRevokeUrlC : CEvent → Bool
  | CEvent.revokeUrl => true
  | _ => false

/-- Is a compositor event the video-element release? -/
def isRemoveVideoC : CEvent → Bool
  | CEvent.removeVideo => true
  | _ => false

/-! Concrete example data used by witness and counterexample theorems. -/

/-- Mono one-frame buffer holding a single sample of `9/10`. -/
def exBufA : AudioBuffer := ⟨1, 1, 8000, [[9/10]]⟩

/-- Mono one-frame buffer holding a single tiny sample of `1/2000`. -/
def exBufTiny : AudioBuffer := ⟨1, 1, 8000, [[1/2000]]⟩

/-- Stereo two-frame buffer. -/
def exBufStereo : AudioBuffer := ⟨2, 2, 8000, [[1/2, -1/2], [1/4, -1/4]]⟩

/-- Mono one-frame buffer holding a sample slightly above `1/32768`, whose
quantization error under the non-negative int16 scaling exceeds
`1/32768`. -/
def exBufEdge : AudioBuffer := ⟨1, 1, 8000, [[65535/2147418112]]⟩

/-! Auxiliary theorems about the embedding, followed by the claim
theorems. -/

theorem ratTrunc_of_nonneg (q : ℚ) (h : 0 ≤ q) : ratTrunc q = ⌊q⌋ := by
  rw [ratTrunc, if_neg (not_lt.mpr h)]
  exact (Rat.floor_def).symm

theorem ratTrunc_of_neg (q : ℚ) (h : q < 0) : ratTrunc q = -⌊-q⌋ := by
  rw [ratTrunc, if_pos h]
  congr 1
  exact (Rat.floor_def).symm
theorem mkBuffer_WF (numChans len rate : ℕ) (f : ℕ → ℕ → ℚ) :
    (mkBuffer numChans len rate f).WF := by
  constructor
  · simp [mkBuffer]
  · intro ch hch
    simp only [mkBuffer, List.mem_map] at hch
    obtain ⟨c, _, rfl⟩ := hch
    simp [mkBuffer]

theorem getSample_mkBuffer (numChans len rate : ℕ) (f : ℕ → ℕ → ℚ) (c i : ℕ)
    (hc : c < numChans) (hi : i < len) :
    getSample (mkBuffer numChans len rate f) c i = f c i := by
  simp [getSample, getChannelData, mkBuffer, List.getD_eq_getElem?_getD,
    List.getElem?_map, List.getElem?_range hc, List.getElem?_range hi]
theorem length_writeBytes (bs : List ℕ) : ∀ (v : List ℕ) (off : ℕ),
    (writeBytes v off bs).length = v.length := by
  induction bs with
  | nil => intro v off; rfl
  | cons b bs ih => intro v off; rw [writeBytes, ih, List.length_set]

theorem writeBytes_append (bs cs : List ℕ) : ∀ (v : List ℕ) (off : ℕ),
    writeBytes v off (bs ++ cs) = writeBytes (writeBytes v off bs) (off + bs.length) cs := by
  induction bs with
  | nil => intro v off; rfl
  | cons b bs ih =>
    intro v off
    simp only [List.cons_append, writeBytes, List.append_eq, ih, List.length_cons]
    have h2 : off + (bs.length + 1) = off + 1 + bs.length := by omega
    rw [h2]

theorem writeBytes_eq_of_le (bs : List ℕ) : ∀ (v : List ℕ) (off : ℕ),
    off + bs.length ≤ v.length →
    writeBytes v off bs = v.take off ++ bs ++ v.drop (off + bs.length) := by
  induction bs with
  | nil =>
    intro v off _
    rw [show writeBytes v off [] = v from rfl]
    simp
  | cons b bs ih =>
    intro v off h
    simp only [List.length_cons] at h
    have hoff : off < v.length := by omega
    rw [writeBytes, ih (v.set off b) (off + 1) (by rw [List.length_set]; omega)]
    rw [List.set_eq_take_cons_drop b hoff]
    have htake : ((v.take off ++ b :: v.drop (off + 1)).take (off + 1)) = v.take off ++ [b] := by
      rw [List.take_append_eq_append_take, List.length_take, min_eq_left (le_of_lt hoff),
        List.take_take, min_eq_right (by omega : off ≤ off + 1)]
      congr 1
      have h1 : off + 1 - off = 1 := by omega
      rw [h1]
      rfl
    have hdrop : ((v.take off ++ b :: v.drop (off + 1)).drop (off + 1 + bs.length)) =
        v.drop (off + (bs.length + 1)) := by
      rw [List.drop_append_eq_append_drop, List.length_take, min_eq_left (le_of_lt hoff),
        List.drop_eq_nil_iff.mpr (by rw [List.length_take, min_eq_left (le_of_lt hoff)]; omega)]
      have h1 : off + 1 + bs.length - off = bs.length + 1 := by omega
      rw [h1, List.drop_succ_cons, List.drop_drop, List.nil_append]
      congr 1
      omega
    rw [htake, hdrop]
    simp only [List.length_cons, List.append_assoc, List.cons_append, List.singleton_append,
      List.nil_append]

/-- Writing a full-length byte list at offset `0` replaces the buffer. -/
theorem writeBytes_full (bs v : List ℕ) (h : bs.length = v.length) :
    writeBytes v 0 bs = bs := by
  rw [writeBytes_eq_of_le bs v 0 (by omega)]
  simp [h]
theorem length_bytesOfUInt16 (x : ℕ) : (bytesOfUInt16 x).length = 2 := rfl

theorem length_bytesOfUInt32 (x : ℕ) : (bytesOfUInt32 x).length = 4 := rfl

theorem length_bytesOfInt16 (x : ℤ) : (bytesOfInt16 x).length = 2 := rfl

theorem length_wavHeaderBytes (b : AudioBuffer) : (wavHeaderBytes b).length = 44 := by
  simp [wavHeaderBytes, charCodes, bytesOfUInt16, bytesOfUInt32]

/-- Length of a uniform-chunk flatten over an index range. -/
theorem length_flatMap_range_const (f : ℕ → List ℕ) (k n : ℕ) (hk : ∀ i, (f i).length = k) :
    ((List.range n).flatMap f).length = n * k := by
  rw [List.length_flatMap]
  have : (List.map (List.length ∘ f) (List.range n)) = List.replicate n k := by
    apply List.eq_replicate_iff.mpr
    refine ⟨by simp, ?_⟩
    intro x hx
    simp only [List.mem_map, Function.comp] at hx
    obtain ⟨i, _, rfl⟩ := hx
    exact hk i
  rw [this]
  simp [List.sum_replicate]

theorem length_wavDataBytes (b : AudioBuffer) :
    (wavDataBytes b).length = b.length * (b.numberOfChannels * 2) := by
  rw [wavDataBytes]
  exact length_flatMap_range_const _ (b.numberOfChannels * 2) _ (fun pos =>
    length_flatMap_range_const _ 2 _ (fun i => rfl))

/-- Folding chunk writes at consecutive chunk offsets equals one write of
the concatenation: this captures how the serializer's per-sample
`setInt16` calls tile the data region. -/
theorem foldl_writeBytes_chunks (f : ℕ → List ℕ) (k : ℕ) (hk : ∀ i, (f i).length = k) :
    ∀ (n : ℕ) (v : List ℕ) (base : ℕ),
    (List.range n).foldl (fun v i => writeBytes v (base + i * k) (f i)) v =
      writeBytes v base ((List.range n).flatMap f) := by
  intro n
  induction n with
  | zero => intro v base; rfl
  | succ n ih =>
    intro v base
    rw [List.range_succ, List.foldl_append, List.flatMap_append, writeBytes_append]
    rw [ih, length_flatMap_range_const f k n hk]
    simp [writeBytes_append]

/-- Writing the header at offset `0` and the data at the header's length
into a zero buffer of exactly the right size produces the concatenation. -/
theorem writeBytes_header_data (v0 hdr data : List ℕ)
    (hv : v0.length = hdr.length + data.length) :
    writeBytes (writeBytes v0 0 hdr) hdr.length data = hdr ++ data := by
  have h := writeBytes_append hdr data v0 0
  rw [Nat.zero_add] at h
  rw [← h, writeBytes_full]
  simp [hv]

theorem audioBufferToWav_eq_wavSpecBytes (b : AudioBuffer) :
    audioBufferToWav b = wavSpecBytes b := by
  unfold audioBufferToWav
  norm_num
  have hinner : ∀ (v : List ℕ) (pos : ℕ),
      List.foldl (fun w i => setInt16 w (44 + pos * (b.numberOfChannels * 2) + i * 2)
        (if clampQ (-1) 1 (getSample b i pos) < 0 then clampQ (-1) 1 (getSample b i pos) * 32768
         else clampQ (-1) 1 (getSample b i pos) * 32767)) v (List.range b.numberOfChannels) =
      writeBytes v (44 + pos * (b.numberOfChannels * 2))
        ((List.range b.numberOfChannels).flatMap fun i =>
          bytesOfInt16 (pcm16OfSample (getSample b i pos))) := by
    intro v pos
    have h := foldl_writeBytes_chunks
      (fun i => bytesOfInt16 (pcm16OfSample (getSample b i pos))) 2
      (fun i => rfl) b.numberOfChannels v (44 + pos * (b.numberOfChannels * 2))
    simpa [setInt16, pcm16OfSample] using h
  simp only [hinner]
  have hk2 : ∀ pos : ℕ, ((List.range b.numberOfChannels).flatMap fun i =>
      bytesOfInt16 (pcm16OfSample (getSample b i pos))).length = b.numberOfChannels * 2 :=
    fun pos => length_flatMap_range_const _ 2 _ (fun i => rfl)
  rw [foldl_writeBytes_chunks _ (b.numberOfChannels * 2) hk2 b.length _ 44]
  have hheader :
      setUint32 (writeString (setUint16 (setUint16 (setUint32 (setUint32 (setUint16 (setUint16
        (setUint32 (writeString (writeString (setUint32 (writeString
          (List.replicate (44 + b.length * (b.numberOfChannels * 2)) 0)
          0 ['R', 'I', 'F', 'F'])
          4 (44 + b.length * (b.numberOfChannels * 2) - 8))
          8 ['W', 'A', 'V', 'E'])
          12 ['f', 'm', 't', ' '])
          16 16)
          20 1)
          22 b.numberOfChannels)
          24 b.sampleRate)
          28 (b.sampleRate * (b.numberOfChannels * 2)))
          32 (b.numberOfChannels * 2))
          34 16)
          36 ['d', 'a', 't', 'a'])
          40 (b.length * (b.numberOfChannels * 2)) =
      writeBytes (List.replicate (44 + b.length * (b.numberOfChannels * 2)) 0) 0
        (wavHeaderBytes b) := by
    simp only [wavHeaderBytes, setUint16, setUint32, writeString, writeBytes_append,
      List.length_append, charCodes, List.length_map, length_bytesOfUInt16, length_bytesOfUInt32,
      List.length_cons, List.length_nil, Nat.mul_assoc]
  rw [hheader]
  have hhd := writeBytes_header_data (List.replicate (44 + b.length * (b.numberOfChannels * 2)) 0)
    (wavHeaderBytes b)
    ((List.range b.length).flatMap fun pos =>
      (List.range b.numberOfChannels).flatMap fun i =>
        bytesOfInt16 (pcm16OfSample (getSample b i pos)))
    (by
      rw [List.length_replicate, length_wavHeaderBytes,
        length_flatMap_range_const _ (b.numberOfChannels * 2) _ hk2])
  rw [length_wavHeaderBytes] at hhd
  rw [hhd, wavSpecBytes, wavDataBytes]

theorem captureRun_countP_rasterize_le (rasterOk blobOk : ℕ → Bool) :
    ∀ (a : ℕ), (captureRun rasterOk blobOk a).countP isRasterize ≤ MAX_ATTEMPTS - a := by
  have H : ∀ (k a : ℕ), MAX_ATTEMPTS - a ≤ k →
      (captureRun rasterOk blobOk a).countP isRasterize ≤ MAX_ATTEMPTS - a := by
    intro k
    induction k with
    | zero =>
      intro a ha
      have h3 : a ≥ MAX_ATTEMPTS := by omega
      rw [captureRun, if_pos h3]
      simp [List.countP_cons, isRasterize]
    | succ k ih =>
      intro a ha
      rw [captureRun]
      by_cases h3 : a ≥ MAX_ATTEMPTS
      · rw [if_pos h3]
        simp [List.countP_cons, isRasterize]
      · rw [if_neg h3]
        simp only
        have h3' : a < 3 := by simpa [MAX_ATTEMPTS] using h3
        by_cases hr : rasterOk (a + 1)
        · rw [if_pos hr]
          by_cases hb : blobOk (a + 1) <;>
            [rw [if_pos hb]; rw [if_neg hb]] <;>
            · simp [List.countP_cons, List.countP_nil, isRasterize, MAX_ATTEMPTS]
              omega
        · rw [if_neg hr]
          by_cases hlt : a + 1 < MAX_ATTEMPTS
          · rw [if_pos hlt]
            have hrec := ih (a + 1) (by omega)
            simp only [MAX_ATTEMPTS] at hrec
            simp [List.countP_cons, isRasterize, MAX_ATTEMPTS]
            omega
          · rw [if_neg hlt]
            simp [List.countP_cons, List.countP_nil, isRasterize, MAX_ATTEMPTS]
            omega
  exact fun a => H MAX_ATTEMPTS a (by omega)

theorem captureRun_mem_kinds (rasterOk blobOk : ℕ → Bool) :
    ∀ (a : ℕ) (e : TEvent), e ∈ captureRun rasterOk blobOk a →
      isRevokeUrl e = false ∧ isRemoveVideo e = false := by
  have H : ∀ (k a : ℕ), MAX_ATTEMPTS - a ≤ k → ∀ e ∈ captureRun rasterOk blobOk a,
      isRevokeUrl e = false ∧ isRemoveVideo e = false := by
    intro k
    induction k with
    | zero =>
      intro a ha e he
      have h3 : a ≥ MAX_ATTEMPTS := by omega
      rw [captureRun, if_pos h3] at he
      simp only [List.mem_singleton] at he
      subst he
      exact ⟨rfl, rfl⟩
    | succ k ih =>
      intro a ha e he
      rw [captureRun] at he
      by_cases h3 : a ≥ MAX_ATTEMPTS
      · rw [if_pos h3] at he
        simp only [List.mem_singleton] at he
        subst he
        exact ⟨rfl, rfl⟩
      · rw [if_neg h3] at he
        simp only at he
        by_cases hr : rasterOk (a + 1)
        · rw [if_pos hr] at he
          rcases List.mem_cons.mp he with rfl | he2
          · exact ⟨rfl, rfl⟩
          · by_cases hb : blobOk (a + 1)
            · rw [if_pos hb] at he2
              simp only [List.mem_singleton] at he2
              subst he2
              exact ⟨rfl, rfl⟩
            · rw [if_neg hb] at he2
              simp only [List.mem_singleton] at he2
              subst he2
              exact ⟨rfl, rfl⟩
        · rw [if_neg hr] at he
          by_cases hlt : a + 1 < MAX_ATTEMPTS
          · rw [if_pos hlt] at he
            rcases List.mem_cons.mp he with rfl | he2
            · exact ⟨rfl, rfl⟩
            · exact ih (a + 1) (by omega) e he2
          · rw [if_neg hlt] at he
            rcases List.mem_cons.mp he with rfl | he2
            · exact ⟨rfl, rfl⟩
            · simp only [List.mem_singleton] at he2
              subst he2
              exact ⟨rfl, rfl⟩
  exact fun a e he => H MAX_ATTEMPTS a (by omega) e he

/-- C1: the WAV serializer, applied to a buffer with `C` channels, `N`
frames and rate `R`, produces exactly `44 + N*C*2` bytes laid out as the
specified 44-byte header (RIFF / sizes / PCM format fields / data chunk)
followed by the frame-interleaved little-endian int16 samples, each sample
clamped to `[-1,1]` and scaled by `32768` when negative and `32767`
otherwise. -/
theorem C1_wav_layout (b : AudioBuffer) :
    audioBufferToWav b = wavSpecBytes b ∧
    (audioBufferToWav b).length = 44 + b.length * b.numberOfChannels * 2 := by
  refine ⟨audioBufferToWav_eq_wavSpecBytes b, ?_⟩
  rw [audioBufferToWav_eq_wavSpecBytes b, wavSpecBytes, List.length_append,
    length_wavHeaderBytes, length_wavDataBytes, Nat.mul_assoc]

/-- C2: every invocation of the extractor performs at most 3 rasterization
attempts, and a further entry into the capture routine with the attempt
counter at `MAX_ATTEMPTS` rejects with the attempt-exceeded error without
starting a 4th rasterization. -/
theorem C2_capture_attempts_bounded (loadOk : Bool) (rasterOk blobOk : ℕ → Bool) :
    (generateThumbnailTrace loadOk rasterOk blobOk).countP isRasterize ≤ MAX_ATTEMPTS ∧
    captureRun rasterOk blobOk MAX_ATTEMPTS = [TEvent.rejectEv RejectReason.exhausted] := by
  constructor
  · by_cases hl : loadOk
    · by_cases hr : rasterOk 1
      · by_cases hb : blobOk 1 <;>
          simp [generateThumbnailTrace, hl, hr, hb, List.countP_append, List.countP_cons,
            isRasterize, MAX_ATTEMPTS]
      · have hcr := captureRun_countP_rasterize_le rasterOk blobOk 1
        simp only [MAX_ATTEMPTS] at hcr ⊢
        simp [generateThumbnailTrace, hl, hr, List.countP_append, List.countP_cons, isRasterize]
        omega
    · simp [generateThumbnailTrace, hl, List.countP_cons, isRasterize, MAX_ATTEMPTS]
  · rw [captureRun]
    simp

/-- C10: the recombination collaborator is a stub returning its input video
file unchanged together with an empty thumbnail blob, never invoking the
progress callback; consequently the compositor's returned blob is
byte-identical to the input video blob and the mixed WAV audio is
discarded. -/
theorem C10_combine_stub (videoFile audioFile : List ℕ) (duration : ℚ)
    (options : AudioOptions) (videoBlob : List ℕ) (videoAudioBuffer : AudioBuffer)
    (audioTrack : Option (Except Unit AudioBuffer)) (videoVolume audioVolume videoDuration : ℚ) :
    combineVideoAndAudio videoFile audioFile duration options = (⟨videoFile, []⟩, []) ∧
    processVideoAudio videoBlob videoAudioBuffer audioTrack videoVolume audioVolume
      videoDuration = (videoBlob, []) :=
  ⟨rfl, rfl⟩

/-- C3 (amended): on every exit path of the thumbnail extractor and of the
audio compositor, each temporary resource handle created by that invocation
(the object URL and the video element, and for the compositor also the
audio decoding context — which is created only when the metadata load
succeeds) is released exactly once, never zero times and never twice; the
compositor's releases occur after its outcome is determined, and the
thumbnail extractor's releases occur after rejection when the video fails
to load, but once capture starts they occur as soon as the first capture
attempt has been dispatched — possibly before the result is resolved or
rejected. -/
theorem C3_release_exactly_once (loadOk : Bool) (rasterOk blobOk : ℕ → Bool)
    (metaResult : Except Unit ℚ) (decodeResult : Except Unit AudioBuffer) :
    ((generateThumbnailTrace loadOk rasterOk blobOk).countP isRevokeUrl = 1 ∧
     (generateThumbnailTrace loadOk rasterOk blobOk).countP isRemoveVideo = 1) ∧
    releaseOnlyAfterSettle (generateThumbnailTrace false rasterOk blobOk) false = true ∧
    ((processVideoAudioTrace metaResult decodeResult).countP isRevokeUrlC = 1 ∧
     (processVideoAudioTrace metaResult decodeResult).countP isRemoveVideoC = 1 ∧
     (processVideoAudioTrace metaResult decodeResult).countP isCloseCtx =
       (match metaResult with | .ok _ => 1 | .error _ => 0)) := by
  refine ⟨⟨?_, ?_⟩, ?_, ?_, ?_, ?_⟩
  · by_cases hl : loadOk
    · by_cases hr : rasterOk 1
      · by_cases hb : blobOk 1 <;>
          simp [generateThumbnailTrace, hl, hr, hb, List.countP_append, List.countP_cons,
            isRevokeUrl]
      · have hz : (captureRun rasterOk blobOk 1).countP isRevokeUrl = 0 := by
          apply List.countP_eq_zero.mpr
          intro e he
          simp [(captureRun_mem_kinds rasterOk blobOk 1 e he).1]
        simp [generateThumbnailTrace, hl, hr, List.countP_append, List.countP_cons,
          isRevokeUrl, hz]
    · simp [generateThumbnailTrace, hl, List.countP_cons, isRevokeUrl]
  · by_cases hl : loadOk
    · by_cases hr : rasterOk 1
      · by_cases hb : blobOk 1 <;>
          simp [generateThumbnailTrace, hl, hr, hb, List.countP_append, List.countP_cons,
            isRemoveVideo]
      · have hz : (captureRun rasterOk blobOk 1).countP isRemoveVideo = 0 := by
          apply List.countP_eq_zero.mpr
          intro e he
          simp [(captureRun_mem_kinds rasterOk blobOk 1 e he).2]
        simp [generateThumbnailTrace, hl, hr, List.countP_append, List.countP_cons,
          isRemoveVideo, hz]
    · simp [generateThumbnailTrace, hl, List.countP_cons, isRemoveVideo]
  · simp [generateThumbnailTrace, releaseOnlyAfterSettle]
  · rcases metaResult with e | q <;> rcases decodeResult with e2 | bu <;>
      simp [processVideoAudioTrace, List.countP_cons, isRevokeUrlC]
  · rcases metaResult with e | q <;> rcases decodeResult with e2 | bu <;>
      simp [processVideoAudioTrace, List.countP_cons, isRemoveVideoC]
  · rcases metaResult with e | q <;> rcases decodeResult with e2 | bu <;>
      simp [processVideoAudioTrace, List.countP_cons, isCloseCtx]

/-- C3 counterexample: with a successful load and an immediately successful
first capture, both resource releases occur before the result is resolved
(the cleanup phase runs when the synchronous part of the `try` block
finishes, while the `toBlob` callback is still pending), refuting the part
of the claim that release happens only after the result is resolved or
rejected. -/
theorem C3_counterexample :
    releaseOnlyAfterSettle (generateThumbnailTrace true (fun _ => true) (fun _ => true)) false
      = false := by
  decide

theorem clampQ_of_mem (lo hi x : ℚ) (h1 : lo ≤ x) (h2 : x ≤ hi) : clampQ lo hi x = x := by
  rw [clampQ, min_eq_right h2, max_eq_right h1]

theorem clampQ_eq_hi (lo hi x : ℚ) (hlh : lo ≤ hi) (h : hi ≤ x) : clampQ lo hi x = hi := by
  rw [clampQ, min_eq_left h, max_eq_right hlh]

theorem clampQ_eq_lo (lo hi x : ℚ) (h : x ≤ lo) : clampQ lo hi x = lo := by
  rw [clampQ, max_eq_left (le_trans (min_le_right hi x) h)]

theorem le_clampQ (lo hi x : ℚ) : lo ≤ clampQ lo hi x := le_max_left _ _

theorem clampQ_le (lo hi x : ℚ) (h : lo ≤ hi) : clampQ lo hi x ≤ hi :=
  max_le h (min_le_left _ _)

theorem secondaryStage_numberOfChannels (v out : AudioBuffer)
    (t : Option (Except Unit AudioBuffer)) (av : ℚ) :
    (secondaryStage v out t av).numberOfChannels = out.numberOfChannels := by
  rcases t with _ | tr
  · rfl
  · rcases tr with e | buf <;> by_cases hav : 0 < av <;>
      simp [secondaryStage, mixSecondaryPass, mkBuffer, hav]

theorem secondaryStage_length (v out : AudioBuffer)
    (t : Option (Except Unit AudioBuffer)) (av : ℚ) :
    (secondaryStage v out t av).length = out.length := by
  rcases t with _ | tr
  · rfl
  · rcases tr with e | buf <;> by_cases hav : 0 < av <;>
      simp [secondaryStage, mixSecondaryPass, mkBuffer, hav]

theorem processOutputBuffer_dims (v : AudioBuffer) (t : Option (Except Unit AudioBuffer))
    (vv av : ℚ) :
    (processOutputBuffer v t vv av).numberOfChannels = v.numberOfChannels ∧
    (processOutputBuffer v t vv av).length = v.length := by
  unfold processOutputBuffer
  split_ifs
  · constructor
    · show (secondaryStage v (primaryPass v vv) t av).numberOfChannels = v.numberOfChannels
      rw [secondaryStage_numberOfChannels]
      rfl
    · show (secondaryStage v (primaryPass v vv) t av).length = v.length
      rw [secondaryStage_length]
      rfl
  · constructor
    · rw [secondaryStage_numberOfChannels]
      rfl
    · rw [secondaryStage_length]
      rfl

theorem hasAudioCheck_eq_false_iff (b : AudioBuffer) :
    hasAudioCheck b = false ↔ ∀ ch ∈ b.channels, ∀ x ∈ ch, |x| ≤ 1 / 1000 := by
  simp [hasAudioCheck, List.any_eq_false, not_lt]

theorem mem_mkBuffer_channels (numChans len rate : ℕ) (f : ℕ → ℕ → ℚ) (ch : List ℚ) (x : ℚ)
    (hch : ch ∈ (mkBuffer numChans len rate f).channels) (hx : x ∈ ch) :
    ∃ c i, c < numChans ∧ i < len ∧ x = f c i := by
  simp only [mkBuffer, List.mem_map] at hch
  obtain ⟨c, hc, rfl⟩ := hch
  simp only [List.mem_map] at hx
  obtain ⟨i, hi, rfl⟩ := hx
  exact ⟨c, i, List.mem_range.mp hc, List.mem_range.mp hi, rfl⟩

/-- C4 (amended): when fetching or decoding the secondary track fails, the
compositor does not raise that failure (the catch absorbs it and this model
stays total); provided `videoVolume ≤ 1`, the buffer handed to
serialization has the primary pass's dimensions and every sample equals
`videoBuffer[c][i] * clamp(videoVolume, 0, 1)` — the video-only primary
result.  (Without the `videoVolume ≤ 1` restriction the silence
self-healing step can rescale by the raw volume, see the
counterexample.) -/
theorem C4_secondary_failure_video_only (videoAudioBuffer : AudioBuffer)
    (videoVolume audioVolume : ℚ) (hvv : videoVolume ≤ 1) (c i : ℕ)
    (hc : c < videoAudioBuffer.numberOfChannels) (hi : i < videoAudioBuffer.length) :
    (processOutputBuffer videoAudioBuffer (some (Except.error ())) videoVolume
        audioVolume).numberOfChannels = videoAudioBuffer.numberOfChannels ∧
    (processOutputBuffer videoAudioBuffer (some (Except.error ())) videoVolume
        audioVolume).length = videoAudioBuffer.length ∧
    getSample (processOutputBuffer videoAudioBuffer (some (Except.error ())) videoVolume
        audioVolume) c i = getSample videoAudioBuffer c i * clampQ 0 1 videoVolume := by
  have hsec : secondaryStage videoAudioBuffer (primaryPass videoAudioBuffer videoVolume)
      (some (Except.error ())) audioVolume = primaryPass videoAudioBuffer videoVolume := by
    by_cases hav : 0 < audioVolume <;> simp [secondaryStage, hav]
  refine ⟨(processOutputBuffer_dims _ _ _ _).1, (processOutputBuffer_dims _ _ _ _).2, ?_⟩
  unfold processOutputBuffer
  rw [hsec]
  by_cases hcond : hasAudioCheck (primaryPass videoAudioBuffer videoVolume) = false ∧
      0 < videoVolume
  · rw [if_pos hcond]
    have hcl : clampQ 0 1 videoVolume = videoVolume :=
      clampQ_of_mem _ _ _ (le_of_lt hcond.2) hvv
    rw [restoreVideoAudio,
      getSample_mkBuffer (primaryPass videoAudioBuffer videoVolume).numberOfChannels
        (primaryPass videoAudioBuffer videoVolume).length
        (primaryPass videoAudioBuffer videoVolume).sampleRate _ c i hc hi,
      if_pos hi, hcl]
  · rw [if_neg hcond]
    rw [primaryPass, getSample_mkBuffer _ _ _ _ c i hc hi]

/-- Witness for C4 at a concrete input: volume `1/2`, mono buffer. -/
theorem C4_witness :
    ((1 : ℚ) / 2 ≤ 1 ∧ 0 < exBufA.numberOfChannels ∧ 0 < exBufA.length) ∧
    getSample (processOutputBuffer exBufA (some (Except.error ())) (1 / 2) 1) 0 0 =
      getSample exBufA 0 0 * clampQ 0 1 (1 / 2) :=
  ⟨⟨by norm_num, by decide, by decide⟩,
   (C4_secondary_failure_video_only exBufA (1 / 2) 1 (by norm_num) 0 0
     (by decide) (by decide)).2.2⟩

/-- Counterexample for C4 as frozen ("for any volumes"): with
`videoVolume = 1000` and a video sample of `1/2000`, the primary pass
yields `1/2000` (below the silence epsilon), the restoration step rescales
by the raw volume to `1/2`, and the output differs from the primary-pass
value `1/2000 * clamp(1000) = 1/2000`. -/
theorem C4_counterexample :
    ¬ (getSample (processOutputBuffer exBufTiny (some (Except.error ())) 1000 1) 0 0 =
       getSample exBufTiny 0 0 * clampQ 0 1 1000) := by
  have hsec : secondaryStage exBufTiny (primaryPass exBufTiny 1000)
      (some (Except.error ())) 1 = primaryPass exBufTiny 1000 := by
    simp [secondaryStage]
  have hget : getSample exBufTiny 0 0 = 1 / 2000 := by
    norm_num [getSample, getChannelData, exBufTiny, List.getD]
  have hclamp : clampQ 0 1 (1000 : ℚ) = 1 := clampQ_eq_hi _ _ _ (by norm_num) (by norm_num)
  have hsilent : hasAudioCheck (primaryPass exBufTiny 1000) = false := by
    rw [hasAudioCheck_eq_false_iff]
    intro ch hch x hx
    obtain ⟨c, i, hc, hi, rfl⟩ := mem_mkBuffer_channels _ _ _ _ ch x hch hx
    simp only [exBufTiny] at hc hi
    have hc0 : c = 0 := by omega
    have hi0 : i = 0 := by omega
    subst hc0; subst hi0
    rw [hget, hclamp, abs_le]
    constructor <;> norm_num
  unfold processOutputBuffer
  rw [hsec, if_pos ⟨hsilent, by norm_num⟩]
  rw [restoreVideoAudio,
    getSample_mkBuffer (primaryPass exBufTiny 1000).numberOfChannels
      (primaryPass exBufTiny 1000).length (primaryPass exBufTiny 1000).sampleRate _ 0 0
      (by decide) (by decide),
    if_pos (by decide : (0:ℕ) < exBufTiny.length)]
  rw [hget, hclamp]
  norm_num

/-- C5: after the mixing passes, when no sample of the mixed buffer exceeds
the `0.001` epsilon in magnitude and `videoVolume > 0`, the compositor
overwrites every sample with `videoBuffer[c][i] * videoVolume` (the raw
volume) before serialization, without surfacing an error (the model stays
total and returns the restored buffer); otherwise the buffer is left
unchanged by this step. -/
theorem C5_silence_restoration (videoAudioBuffer : AudioBuffer)
    (audioTrack : Option (Except Unit AudioBuffer)) (videoVolume audioVolume : ℚ) :
    (hasAudioCheck (secondaryStage videoAudioBuffer (primaryPass videoAudioBuffer videoVolume)
        audioTrack audioVolume) = false ↔
      ∀ ch ∈ (secondaryStage videoAudioBuffer (primaryPass videoAudioBuffer videoVolume)
          audioTrack audioVolume).channels, ∀ x ∈ ch, |x| ≤ 1 / 1000) ∧
    (hasAudioCheck (secondaryStage videoAudioBuffer (primaryPass videoAudioBuffer videoVolume)
        audioTrack audioVolume) = false ∧ 0 < videoVolume →
      processOutputBuffer videoAudioBuffer audioTrack videoVolume audioVolume =
        restoreVideoAudio videoAudioBuffer
          (secondaryStage videoAudioBuffer (primaryPass videoAudioBuffer videoVolume)
            audioTrack audioVolume) videoVolume ∧
      ∀ c, c < videoAudioBuffer.numberOfChannels → ∀ i, i < videoAudioBuffer.length →
        getSample (processOutputBuffer videoAudioBuffer audioTrack videoVolume audioVolume) c i =
          getSample videoAudioBuffer c i * videoVolume) ∧
    (¬ (hasAudioCheck (secondaryStage videoAudioBuffer (primaryPass videoAudioBuffer videoVolume)
        audioTrack audioVolume) = false ∧ 0 < videoVolume) →
      processOutputBuffer videoAudioBuffer audioTrack videoVolume audioVolume =
        secondaryStage videoAudioBuffer (primaryPass videoAudioBuffer videoVolume) audioTrack
          audioVolume) := by
  refine ⟨hasAudioCheck_eq_false_iff _, fun h => ⟨?_, fun c hc i hi => ?_⟩, fun h => ?_⟩
  · unfold processOutputBuffer
    rw [if_pos h]
  · unfold processOutputBuffer
    rw [if_pos h]
    have hc' : c < (secondaryStage videoAudioBuffer (primaryPass videoAudioBuffer videoVolume)
        audioTrack audioVolume).numberOfChannels := by
      rw [secondaryStage_numberOfChannels]
      exact hc
    have hi' : i < (secondaryStage videoAudioBuffer (primaryPass videoAudioBuffer videoVolume)
        audioTrack audioVolume).length := by
      rw [secondaryStage_length]
      exact hi
    rw [restoreVideoAudio, getSample_mkBuffer _ _ _ _ c i hc' hi', if_pos hi]
  · unfold processOutputBuffer
    rw [if_neg h]

/-- Witness for C5 at a concrete input: no secondary track, volume `1/2`,
tiny video sample, so the silence condition holds and restoration fires. -/
theorem C5_witness :
    (hasAudioCheck (secondaryStage exBufTiny (primaryPass exBufTiny (1 / 2)) none 0) = false ∧
      (0 : ℚ) < 1 / 2) ∧
    (processOutputBuffer exBufTiny none (1 / 2) 0 =
      restoreVideoAudio exBufTiny
        (secondaryStage exBufTiny (primaryPass exBufTiny (1 / 2)) none 0) (1 / 2) ∧
    ∀ c, c < exBufTiny.numberOfChannels → ∀ i, i < exBufTiny.length →
      getSample (processOutputBuffer exBufTiny none (1 / 2) 0) c i =
        getSample exBufTiny c i * (1 / 2)) := by
  have hget : getSample exBufTiny 0 0 = 1 / 2000 := by
    norm_num [getSample, getChannelData, exBufTiny, List.getD]
  have hsilent : hasAudioCheck (secondaryStage exBufTiny (primaryPass exBufTiny (1 / 2)) none 0)
      = false := by
    rw [show secondaryStage exBufTiny (primaryPass exBufTiny (1 / 2)) none 0 =
        primaryPass exBufTiny (1 / 2) from rfl]
    rw [hasAudioCheck_eq_false_iff]
    intro ch hch x hx
    obtain ⟨c, i, hc, hi, rfl⟩ := mem_mkBuffer_channels _ _ _ _ ch x hch hx
    simp only [exBufTiny] at hc hi
    have hc0 : c = 0 := by omega
    have hi0 : i = 0 := by omega
    subst hc0; subst hi0
    rw [hget, clampQ_of_mem 0 1 (1 / 2) (by norm_num) (by norm_num), abs_le]
    constructor <;> norm_num
  exact ⟨⟨hsilent, by norm_num⟩,
    (C5_silence_restoration exBufTiny none (1 / 2) 0).2.1 ⟨hsilent, by norm_num⟩⟩

/-- C6: with both volumes at zero the output buffer the compositor
serializes is identically zero, the self-healing step does not overwrite it
(its `videoVolume > 0` condition is false, so the buffer equals the
post-mixing stage unchanged), and the serialized PCM data region — every
byte after the 44-byte header — is all zero. -/
theorem C6_zero_volumes_silence (videoAudioBuffer : AudioBuffer)
    (audioTrack : Option (Except Unit AudioBuffer)) :
    (∀ c, c < (processOutputBuffer videoAudioBuffer audioTrack 0 0).numberOfChannels →
     ∀ i, i < (processOutputBuffer videoAudioBuffer audioTrack 0 0).length →
      getSample (processOutputBuffer videoAudioBuffer audioTrack 0 0) c i = 0) ∧
    processOutputBuffer videoAudioBuffer audioTrack 0 0 =
      secondaryStage videoAudioBuffer (primaryPass videoAudioBuffer 0) audioTrack 0 ∧
    (audioBufferToWav (processOutputBuffer videoAudioBuffer audioTrack 0 0)).drop 44 =
      List.replicate ((processOutputBuffer videoAudioBuffer audioTrack 0 0).length *
        (processOutputBuffer videoAudioBuffer audioTrack 0 0).numberOfChannels * 2) 0 := by
  have hsec0 : secondaryStage videoAudioBuffer (primaryPass videoAudioBuffer 0) audioTrack 0 =
      primaryPass videoAudioBuffer 0 := by
    rcases audioTrack with _ | tr
    · rfl
    · simp [secondaryStage]
  have hzero : ∀ c i, c < videoAudioBuffer.numberOfChannels → i < videoAudioBuffer.length →
      getSample (primaryPass videoAudioBuffer 0) c i = 0 := by
    intro c i hc hi
    rw [primaryPass, getSample_mkBuffer _ _ _ _ c i hc hi,
      clampQ_of_mem 0 1 0 le_rfl (by norm_num), mul_zero]
  have hmain : processOutputBuffer videoAudioBuffer audioTrack 0 0 =
      primaryPass videoAudioBuffer 0 := by
    unfold processOutputBuffer
    rw [hsec0, if_neg (by simp)]
  have hpcm0 : pcm16OfSample 0 = 0 := by
    show ratTrunc (if clampQ (-1) 1 0 < 0 then clampQ (-1) 1 0 * 32768
      else clampQ (-1) 1 0 * 32767) = 0
    rw [clampQ_of_mem (-1) 1 0 (by norm_num) (by norm_num), if_neg (lt_irrefl (0 : ℚ)),
      zero_mul, ratTrunc_of_nonneg 0 le_rfl, Int.floor_zero]
  refine ⟨fun c hc i hi => ?_, by rw [hmain, hsec0], ?_⟩
  · rw [hmain] at hc hi ⊢
    exact hzero c i hc hi
  · rw [hmain, audioBufferToWav_eq_wavSpecBytes, wavSpecBytes,
      ← length_wavHeaderBytes (primaryPass videoAudioBuffer 0), List.drop_left]
    apply List.eq_replicate_iff.mpr
    constructor
    · rw [length_wavDataBytes]
      exact (Nat.mul_assoc _ _ _).symm
    · intro x hx
      rw [wavDataBytes] at hx
      simp only [List.mem_flatMap, List.mem_range] at hx
      obtain ⟨pos, hpos, chn, hchn, hx⟩ := hx
      rw [hzero chn pos hchn hpos, hpcm0] at hx
      have hb : bytesOfInt16 0 = [0, 0] := rfl
      rw [hb] at hx
      simp only [List.mem_cons, List.not_mem_nil, or_false] at hx
      rcases hx with rfl | rfl <;> rfl

/-- Witness for C6 at a concrete input. -/
theorem C6_witness :
    (0 < (processOutputBuffer exBufA none 0 0).numberOfChannels ∧
     0 < (processOutputBuffer exBufA none 0 0).length) ∧
    getSample (processOutputBuffer exBufA none 0 0) 0 0 = 0 := by
  have h1 : 0 < (processOutputBuffer exBufA none 0 0).numberOfChannels := by
    rw [(processOutputBuffer_dims exBufA none 0 0).1]
    decide
  have h2 : 0 < (processOutputBuffer exBufA none 0 0).length := by
    rw [(processOutputBuffer_dims exBufA none 0 0).2]
    decide
  exact ⟨⟨h1, h2⟩, (C6_zero_volumes_silence exBufA none).1 0 h1 0 h2⟩

/-- C7: in the secondary mixing pass, for every output channel `c` and
frame `i` below `audioLength`, the output sample is the clip to `[-1, 1]`
of `primary[c][i] + secondary[c mod secondaryChannels][i] *
clamp(audioVolume,0,1) * 0.8`; in particular a weighted sum above `1`
stores exactly `1` and one below `-1` stores exactly `-1`. -/
theorem C7_mix_formula_and_clipping (outputBuffer audioTrackBuffer : AudioBuffer)
    (videoLength : ℕ) (audioVolume : ℚ) (c i : ℕ)
    (hc : c < outputBuffer.numberOfChannels)
    (hi : i < min audioTrackBuffer.length videoLength)
    (hiN : i < outputBuffer.length) :
    getSample (mixSecondaryPass outputBuffer videoLength audioTrackBuffer audioVolume) c i =
      clampQ (-1) 1 (getSample outputBuffer c i +
        getSample audioTrackBuffer (c % audioTrackBuffer.numberOfChannels) i *
          (clampQ 0 1 audioVolume * (8 / 10))) ∧
    (1 < getSample outputBuffer c i +
        getSample audioTrackBuffer (c % audioTrackBuffer.numberOfChannels) i *
          (clampQ 0 1 audioVolume * (8 / 10)) →
      getSample (mixSecondaryPass outputBuffer videoLength audioTrackBuffer audioVolume) c i
        = 1) ∧
    (getSample outputBuffer c i +
        getSample audioTrackBuffer (c % audioTrackBuffer.numberOfChannels) i *
          (clampQ 0 1 audioVolume * (8 / 10)) < -1 →
      getSample (mixSecondaryPass outputBuffer videoLength audioTrackBuffer audioVolume) c i
        = -1) := by
  have hmain : getSample (mixSecondaryPass outputBuffer videoLength audioTrackBuffer
      audioVolume) c i = clampQ (-1) 1 (getSample outputBuffer c i +
        getSample audioTrackBuffer (c % audioTrackBuffer.numberOfChannels) i *
          (clampQ 0 1 audioVolume * (8 / 10))) := by
    simp only [mixSecondaryPass]
    rw [getSample_mkBuffer _ _ _ _ c i hc hiN, if_pos hi]
  refine ⟨hmain, fun hgt => ?_, fun hlt => ?_⟩
  · rw [hmain]
    exact clampQ_eq_hi _ _ _ (by norm_num) (le_of_lt hgt)
  · rw [hmain]
    exact clampQ_eq_lo _ _ _ (le_of_lt hlt)

/-- Witness for C7 at a concrete input whose weighted sum `81/50` exceeds
`1`, so the stored sample is exactly `1`. -/
theorem C7_witness :
    (0 < exBufA.numberOfChannels ∧ 0 < min exBufA.length 1 ∧ 0 < exBufA.length ∧
      1 < getSample exBufA 0 0 + getSample exBufA (0 % exBufA.numberOfChannels) 0 *
        (clampQ 0 1 1 * (8 / 10))) ∧
    getSample (mixSecondaryPass exBufA 1 exBufA 1) 0 0 = 1 := by
  have hsum : 1 < getSample exBufA 0 0 + getSample exBufA (0 % exBufA.numberOfChannels) 0 *
      (clampQ 0 1 1 * (8 / 10)) := by
    rw [clampQ_of_mem 0 1 1 (by norm_num) le_rfl]
    norm_num [getSample, getChannelData, exBufA, List.getD]
  exact ⟨⟨by decide, by decide, by decide, hsum⟩,
    (C7_mix_formula_and_clipping exBufA exBufA 1 1 0 0 (by decide) (by decide)
      (by decide)).2.1 hsum⟩

/-- C8: a channel-count mismatch between the video and secondary buffers
does not fault the secondary pass (the model is total): each output channel
`c` reads the secondary buffer's channel `c mod secondaryChannels`, so with
a mono secondary track channel `0` is mixed into every output channel. -/
theorem C8_mono_secondary_modulo (outputBuffer audioTrackBuffer : AudioBuffer)
    (videoLength : ℕ) (audioVolume : ℚ) (c i : ℕ)
    (hc : c < outputBuffer.numberOfChannels)
    (hi : i < min audioTrackBuffer.length videoLength)
    (hiN : i < outputBuffer.length) :
    getSample (mixSecondaryPass outputBuffer videoLength audioTrackBuffer audioVolume) c i =
      clampQ (-1) 1 (getSample outputBuffer c i +
        getSample audioTrackBuffer (c % audioTrackBuffer.numberOfChannels) i *
          (clampQ 0 1 audioVolume * (8 / 10))) ∧
    (audioTrackBuffer.numberOfChannels = 1 →
      getSample (mixSecondaryPass outputBuffer videoLength audioTrackBuffer audioVolume) c i =
        clampQ (-1) 1 (getSample outputBuffer c i +
          getSample audioTrackBuffer 0 i * (clampQ 0 1 audioVolume * (8 / 10)))) := by
  have hmain : getSample (mixSecondaryPass outputBuffer videoLength audioTrackBuffer
      audioVolume) c i = clampQ (-1) 1 (getSample outputBuffer c i +
        getSample audioTrackBuffer (c % audioTrackBuffer.numberOfChannels) i *
          (clampQ 0 1 audioVolume * (8 / 10))) := by
    simp only [mixSecondaryPass]
    rw [getSample_mkBuffer _ _ _ _ c i hc hiN, if_pos hi]
  refine ⟨hmain, fun h1 => ?_⟩
  rw [hmain, h1, Nat.mod_one]

/-- Witness for C8 at a concrete input: stereo output, mono secondary
track, second output channel (`c = 1`) reads secondary channel `0`. -/
theorem C8_witness :
    (1 < exBufStereo.numberOfChannels ∧ 0 < min exBufA.length 2 ∧ 0 < exBufStereo.length ∧
      exBufA.numberOfChannels = 1) ∧
    getSample (mixSecondaryPass exBufStereo 2 exBufA 1) 1 0 =
      clampQ (-1) 1 (getSample exBufStereo 1 0 +
        getSample exBufA 0 0 * (clampQ 0 1 1 * (8 / 10))) :=
  ⟨⟨by decide, by decide, by decide, by decide⟩,
   (C8_mono_secondary_modulo exBufStereo exBufA 2 1 1 0 (by decide) (by decide)
     (by decide)).2 (by decide)⟩

/-- Indexing a uniform-chunk flatten: entry `pos * k + j` of the flattened
list is entry `j` of chunk `pos`. -/
theorem flatMap_range_getD : ∀ (pos : ℕ) (f : ℕ → List ℕ) (k : ℕ), (∀ i, (f i).length = k) →
    ∀ (n j : ℕ), pos < n → j < k →
    ((List.range n).flatMap f).getD (pos * k + j) 0 = (f pos).getD j 0 := by
  intro pos
  induction pos with
  | zero =>
    intro f k hk n j hn hj
    obtain ⟨m, rfl⟩ : ∃ m, n = m + 1 := ⟨n - 1, by omega⟩
    rw [List.range_succ_eq_map]
    rw [show ((0 :: (List.range m).map Nat.succ).flatMap f) =
      f 0 ++ ((List.range m).map Nat.succ).flatMap f from rfl]
    rw [Nat.zero_mul, Nat.zero_add]
    exact List.getD_append _ _ _ _ (by rw [hk 0]; exact hj)
  | succ pos ih =>
    intro f k hk n j hn hj
    obtain ⟨m, rfl⟩ : ∃ m, n = m + 1 := ⟨n - 1, by omega⟩
    rw [List.range_succ_eq_map]
    rw [show ((0 :: (List.range m).map Nat.succ).flatMap f) =
      f 0 ++ ((List.range m).map Nat.succ).flatMap f from rfl]
    have hidx : (pos + 1) * k + j = (f 0).length + (pos * k + j) := by
      rw [hk 0]
      ring
    rw [hidx, List.getD_append_right _ _ _ _ (by omega), Nat.add_sub_cancel_left]
    have hmapped : ((List.range m).map Nat.succ).flatMap f =
        (List.range m).flatMap (fun x => f (x + 1)) := by
      simp [List.flatMap_map, Function.comp]
    rw [hmapped]
    exact ih (fun x => f (x + 1)) k (fun i => hk (i + 1)) m j (by omega) hj

/-- The serializer's PCM value always fits in a signed 16-bit integer. -/
theorem pcm16OfSample_bounds (s : ℚ) :
    -32768 ≤ pcm16OfSample s ∧ pcm16OfSample s ≤ 32767 := by
  have h1 : -1 ≤ clampQ (-1) 1 s := le_clampQ _ _ _
  have h2 : clampQ (-1) 1 s ≤ 1 := clampQ_le _ _ _ (by norm_num)
  rw [show pcm16OfSample s = ratTrunc (if clampQ (-1) 1 s < 0 then clampQ (-1) 1 s * 32768
    else clampQ (-1) 1 s * 32767) from rfl]
  set t := clampQ (-1) 1 s with ht
  by_cases hneg : t < 0
  · rw [if_pos hneg]
    have hq : t * 32768 < 0 := mul_neg_of_neg_of_pos hneg (by norm_num)
    rw [ratTrunc_of_neg _ hq]
    have hfl : (0 : ℤ) ≤ ⌊-(t * 32768)⌋ := Int.floor_nonneg.mpr (by linarith)
    have hfu : (⌊-(t * 32768)⌋ : ℚ) ≤ 32768 := le_trans (Int.floor_le _) (by nlinarith)
    have hfu' : ⌊-(t * 32768)⌋ ≤ 32768 := by exact_mod_cast hfu
    omega
  · rw [if_neg hneg]
    push_neg at hneg
    have hq : (0 : ℚ) ≤ t * 32767 := mul_nonneg hneg (by norm_num)
    rw [ratTrunc_of_nonneg _ hq]
    have hfl : (0 : ℤ) ≤ ⌊t * 32767⌋ := Int.floor_nonneg.mpr hq
    have hfu : (⌊t * 32767⌋ : ℚ) ≤ 32767 := le_trans (Int.floor_le _) (by nlinarith)
    have hfu' : ⌊t * 32767⌋ ≤ 32767 := by exact_mod_cast hfu
    omega

/-- Reassembling the two stored bytes of an in-range int16 recovers it. -/
theorem int16FromBytes_bytesOfInt16 (x : ℤ) (h1 : -32768 ≤ x) (h2 : x ≤ 32767) :
    int16FromBytes ((bytesOfInt16 x).getD 0 0) ((bytesOfInt16 x).getD 1 0) = x := by
  show int16FromBytes ((x % 65536).toNat % 256) ((x % 65536).toNat / 256 % 256) = x
  rw [int16FromBytes]
  split_ifs with h <;> omega

/-- Reading back sample `(pos, c)` from the serialized bytes recovers
exactly the serializer's PCM value of that sample. -/
theorem readWavSample_eq (b : AudioBuffer) (c pos : ℕ)
    (hc : c < b.numberOfChannels) (hpos : pos < b.length) :
    readWavSample (audioBufferToWav b) b.numberOfChannels pos c =
      pcm16OfSample (getSample b c pos) := by
  rw [readWavSample, audioBufferToWav_eq_wavSpecBytes, wavSpecBytes]
  have hd : ∀ m : ℕ, (wavHeaderBytes b ++ wavDataBytes b).getD (44 + m) 0 =
      (wavDataBytes b).getD m 0 := by
    intro m
    rw [List.getD_append_right _ _ _ _ (by rw [length_wavHeaderBytes]; omega),
      length_wavHeaderBytes]
    congr 1
    omega
  rw [show 44 + (pos * b.numberOfChannels + c) * 2 + 1 =
    44 + ((pos * b.numberOfChannels + c) * 2 + 1) from by omega]
  rw [hd ((pos * b.numberOfChannels + c) * 2), hd ((pos * b.numberOfChannels + c) * 2 + 1)]
  rw [wavDataBytes]
  rw [show (pos * b.numberOfChannels + c) * 2 + 1 =
    pos * (b.numberOfChannels * 2) + (c * 2 + 1) from by ring]
  rw [show (pos * b.numberOfChannels + c) * 2 =
    pos * (b.numberOfChannels * 2) + (c * 2 + 0) from by ring]
  have houter : ∀ (j : ℕ), c * 2 + j < b.numberOfChannels * 2 →
      ((List.range b.length).flatMap fun p => (List.range b.numberOfChannels).flatMap fun i =>
        bytesOfInt16 (pcm16OfSample (getSample b i p))).getD
          (pos * (b.numberOfChannels * 2) + (c * 2 + j)) 0 =
      ((List.range b.numberOfChannels).flatMap fun i =>
        bytesOfInt16 (pcm16OfSample (getSample b i pos))).getD (c * 2 + j) 0 :=
    fun j hj => flatMap_range_getD pos
      (fun p => (List.range b.numberOfChannels).flatMap fun i =>
        bytesOfInt16 (pcm16OfSample (getSample b i p)))
      (b.numberOfChannels * 2)
      (fun p => length_flatMap_range_const
        (fun i => bytesOfInt16 (pcm16OfSample (getSample b i p))) 2 b.numberOfChannels
        (fun i => rfl))
      b.length (c * 2 + j) hpos hj
  have hinner : ∀ (j : ℕ), j < 2 →
      ((List.range b.numberOfChannels).flatMap fun i =>
        bytesOfInt16 (pcm16OfSample (getSample b i pos))).getD (c * 2 + j) 0 =
      (bytesOfInt16 (pcm16OfSample (getSample b c pos))).getD j 0 :=
    fun j hj => flatMap_range_getD c
      (fun i => bytesOfInt16 (pcm16OfSample (getSample b i pos))) 2 (fun i => rfl)
      b.numberOfChannels j hc hj
  rw [houter 0 (by omega), houter 1 (by omega), hinner 0 (by omega), hinner 1 (by omega)]
  exact int16FromBytes_bytesOfInt16 _ (pcm16OfSample_bounds _).1 (pcm16OfSample_bounds _).2

/-- Per-sample quantization error of serialize-then-decode, for samples in
`[-1, 1]`: at most `1/32767`. -/
theorem decodePCM_pcm16_close (s : ℚ) (h1 : -1 ≤ s) (h2 : s ≤ 1) :
    |decodePCM (pcm16OfSample s) - s| ≤ 1 / 32767 := by
  have hcl : clampQ (-1) 1 s = s := clampQ_of_mem _ _ _ h1 h2
  rw [show pcm16OfSample s = ratTrunc (if clampQ (-1) 1 s < 0 then clampQ (-1) 1 s * 32768
    else clampQ (-1) 1 s * 32767) from rfl, hcl]
  by_cases hneg : s < 0
  · rw [if_pos hneg]
    have hq : s * 32768 < 0 := mul_neg_of_neg_of_pos hneg (by norm_num)
    rw [ratTrunc_of_neg _ hq]
    set m : ℤ := ⌊-(s * 32768)⌋ with hm
    have hm0 : 0 ≤ m := Int.floor_nonneg.mpr (by linarith)
    have hmle : (m : ℚ) ≤ -(s * 32768) := Int.floor_le _
    have hmgt : -(s * 32768) < m + 1 := Int.lt_floor_add_one _
    rw [decodePCM]
    by_cases hmz : m = 0
    · rw [hmz] at hmle hmgt ⊢
      push_cast at hmle hmgt
      rw [if_neg (by norm_num), abs_le]
      constructor <;> · push_cast; linarith
    · have hmneg : -m < 0 := by omega
      rw [if_pos hmneg, abs_le]
      constructor <;> · push_cast; linarith
  · rw [if_neg hneg]
    push_neg at hneg
    have hq : (0 : ℚ) ≤ s * 32767 := mul_nonneg hneg (by norm_num)
    rw [ratTrunc_of_nonneg _ hq]
    set m : ℤ := ⌊s * 32767⌋ with hm
    have hm0 : 0 ≤ m := Int.floor_nonneg.mpr hq
    have hmle : (m : ℚ) ≤ s * 32767 := Int.floor_le _
    have hmgt : s * 32767 < m + 1 := Int.lt_floor_add_one _
    rw [decodePCM, if_neg (by omega : ¬ m < 0), abs_le]
    constructor <;> · push_cast; linarith

/-- C9 (amended): serializing a buffer whose samples lie in `[-1, 1]` and
decoding the stored int16 values with the inverse scaling reproduces each
sample within `1/32767` (the frozen claim's `1/32768` bound fails for
non-negative samples, which are scaled by `32767`; see the
counterexample). -/
theorem C9_roundtrip_amended (b : AudioBuffer) (hwf : b.WF)
    (hin : ∀ ch ∈ b.channels, ∀ s ∈ ch, -1 ≤ s ∧ s ≤ 1) (c pos : ℕ)
    (hc : c < b.numberOfChannels) (hpos : pos < b.length) :
    |decodePCM (readWavSample (audioBufferToWav b) b.numberOfChannels pos c) -
      getSample b c pos| ≤ 1 / 32767 := by
  have hclen : c < b.channels.length := by rw [hwf.1]; exact hc
  have hchmem : b.channels[c] ∈ b.channels := List.getElem_mem hclen
  have hplen : pos < (b.channels[c]).length := by rw [hwf.2 _ hchmem]; exact hpos
  have hsmem : (b.channels[c])[pos] ∈ b.channels[c] := List.getElem_mem hplen
  have hs : -1 ≤ getSample b c pos ∧ getSample b c pos ≤ 1 := by
    have hr := hin _ hchmem _ hsmem
    rw [getSample, getChannelData, List.getD_eq_getElem _ _ hclen,
      List.getD_eq_getElem _ _ hplen]
    exact hr
  rw [readWavSample_eq b c pos hc hpos]
  exact decodePCM_pcm16_close _ hs.1 hs.2

/-- Witness for C9 (amended) at a concrete stereo buffer. -/
theorem C9_witness :
    (exBufStereo.WF ∧ (∀ ch ∈ exBufStereo.channels, ∀ s ∈ ch, -1 ≤ s ∧ s ≤ 1) ∧
      0 < exBufStereo.numberOfChannels ∧ 1 < exBufStereo.length) ∧
    |decodePCM (readWavSample (audioBufferToWav exBufStereo) exBufStereo.numberOfChannels 1 0) -
      getSample exBufStereo 0 1| ≤ 1 / 32767 := by
  have hrange : ∀ ch ∈ exBufStereo.channels, ∀ s ∈ ch, -1 ≤ s ∧ s ≤ 1 := by
    intro ch hch s hs
    simp only [exBufStereo, List.mem_cons, List.not_mem_nil, or_false] at hch
    rcases hch with rfl | rfl <;>
      · simp only [List.mem_cons, List.not_mem_nil, or_false] at hs
        rcases hs with rfl | rfl <;> constructor <;> norm_num
  exact ⟨⟨by decide, hrange, by decide, by decide⟩,
    C9_roundtrip_amended exBufStereo (by decide) hrange 0 1 (by decide) (by decide)⟩

/-- Counterexample for C9 as frozen: the sample `65535/2147418112`
(slightly above `1/32768`, with `2147418112 = 32767 * 65536`) scales to
`65535/65536`, truncates to the stored value `0`, decodes to `0`, and the
error `65535/2147418112` exceeds `1/32768`. -/
theorem C9_counterexample :
    exBufEdge.WF ∧ (∀ ch ∈ exBufEdge.channels, ∀ s ∈ ch, -1 ≤ s ∧ s ≤ 1) ∧
    ¬ (|decodePCM (readWavSample (audioBufferToWav exBufEdge) exBufEdge.numberOfChannels 0 0) -
        getSample exBufEdge 0 0| ≤ 1 / 32768) := by
  have hget : getSample exBufEdge 0 0 = 65535 / 2147418112 := by
    norm_num [getSample, getChannelData, exBufEdge, List.getD]
  have hr : readWavSample (audioBufferToWav exBufEdge) exBufEdge.numberOfChannels 0 0 =
      pcm16OfSample (getSample exBufEdge 0 0) :=
    readWavSample_eq exBufEdge 0 0 (by decide) (by decide)
  have hcl : clampQ (-1) 1 (65535 / 2147418112 : ℚ) = 65535 / 2147418112 :=
    clampQ_of_mem _ _ _ (by norm_num) (by norm_num)
  have hpcm : pcm16OfSample (65535 / 2147418112 : ℚ) = 0 := by
    show ratTrunc (if clampQ (-1) 1 (65535 / 2147418112 : ℚ) < 0 then
      clampQ (-1) 1 (65535 / 2147418112 : ℚ) * 32768 else
      clampQ (-1) 1 (65535 / 2147418112 : ℚ) * 32767) = 0
    rw [hcl, if_neg (by norm_num), ratTrunc_of_nonneg _ (by norm_num)]
    rw [show (65535 / 2147418112 : ℚ) * 32767 = 65535 / 65536 from by norm_num]
    refine Int.floor_eq_zero_iff.mpr ?_
    rw [Set.mem_Ico]
    constructor <;> norm_num
  refine ⟨by decide, ?_, ?_⟩
  · intro ch hch s hs
    simp only [exBufEdge, List.mem_cons, List.not_mem_nil, or_false] at hch
    subst hch
    simp only [List.mem_cons, List.not_mem_nil, or_false] at hs
    subst hs
    constructor <;> norm_num
  · rw [hr, hget, hpcm, decodePCM, if_neg (by omega : ¬ (0 : ℤ) < 0)]
    rw [not_le]
    push_cast
    rw [show ((0 : ℚ) / 32767 - 65535 / 2147418112) = -(65535 / 2147418112) from by norm_num,
      abs_neg, abs_of_nonneg (by norm_num)]
    norm_num
